import Mathlib

/-!
Shallow embedding of the card-game core (cardgame.py): the Card/Deck data
model, the AnimatedCard animation engine, and the main-loop controller
(draw command, reshuffle command, per-frame tick).  Python lists are
embedded as Lean lists, machine arithmetic on coordinates and angles as
exact rationals, and the random shuffle as an arbitrary permutation
parameter.  Theorems at the end settle the specification claims.
-/

namespace CardGame

/-- Enum for card suits (class Suit). -/
inductive Suit
  | HEARTS
  | DIAMONDS
  | CLUBS
  | SPADES
deriving DecidableEq

/-- Enum for card ranks (class Rank). -/
inductive Rank
  | ACE
  | TWO
  | THREE
  | FOUR
  | FIVE
  | SIX
  | SEVEN
  | EIGHT
  | NINE
  | TEN
  | JACK
  | QUEEN
  | KING
deriving DecidableEq

/-- A single playing card (class Card): a suit and a rank. -/
structure Card where
  suit : Suit
  rank : Rank
deriving DecidableEq

/-- Iteration order of `for suit in Suit`. -/
def suitList : List Suit :=
  [.HEARTS, .DIAMONDS, .CLUBS, .SPADES]

/-- Iteration order of `for rank in Rank`. -/
def rankList : List Rank :=
  [.ACE, .TWO, .THREE, .FOUR, .FIVE, .SIX, .SEVEN, .EIGHT, .NINE, .TEN,
   .JACK, .QUEEN, .KING]

/-- The 52 cards appended by Deck._initialize_deck's nested loops
(for suit in Suit: for rank in Rank: cards.append(Card(suit, rank))),
before random.shuffle is applied.  The shuffle is modelled as an
arbitrary permutation of this list. -/
def initialDeckCards : List Card :=
  suitList.flatMap (fun s => rankList.map (fun r => ⟨s, r⟩))

/-- Deck.draw_card: if the card list is non-empty, pop and return the last
element (the fixed top); otherwise return none and leave the list unchanged. -/
def draw_card (cards : List Card) : Option Card × List Card :=
  if cards.isEmpty then (none, cards) else (cards.getLast?, cards.dropLast)

/-- Deck.cards_remaining: number of cards left in the deck. -/
def cards_remaining (cards : List Card) : ℕ :=
  cards.length

/-- A card being animated between two screen positions (class AnimatedCard).
Coordinates and the flip angle are exact rationals; elapsed and duration are
frame counts. -/
structure AnimatedCard where
  card : Card
  start_x : ℚ
  start_y : ℚ
  end_x : ℚ
  end_y : ℚ
  duration : ℕ
  elapsed : ℕ
  to_deck : Bool
  flip_angle : ℚ
deriving DecidableEq

/-- AnimatedCard.__init__: elapsed starts at 0; the flip angle starts at 0
degrees for a card going to the deck and at 180 degrees for a card coming
from the deck. -/
def mkAnimatedCard (card : Card) (start_x start_y end_x end_y : ℚ)
    (duration : ℕ) (to_deck : Bool) : AnimatedCard :=
  { card := card
    start_x := start_x
    start_y := start_y
    end_x := end_x
    end_y := end_y
    duration := duration
    elapsed := 0
    to_deck := to_deck
    flip_angle := if to_deck then 0 else 180 }

/-- AnimatedCard.update: increment elapsed by one and recompute the flip
angle from the new elapsed value. -/
def update (a : AnimatedCard) : AnimatedCard :=
  let e := a.elapsed + 1
  { a with
    elapsed := e
    flip_angle :=
      if a.to_deck then ((e : ℚ) / (a.duration : ℚ)) * 180
      else 180 - ((e : ℚ) / (a.duration : ℚ)) * 180 }

/-- AnimatedCard.is_complete: elapsed has reached the duration. -/
def is_complete (a : AnimatedCard) : Bool :=
  decide (a.duration ≤ a.elapsed)

/-- AnimatedCard.get_position: ease-out-cubic interpolation of the start and
end coordinates by progress = elapsed / duration. -/
def get_position (a : AnimatedCard) : ℚ × ℚ :=
  let progress : ℚ := (a.elapsed : ℚ) / (a.duration : ℚ)
  let eased_progress : ℚ := 1 - ((1 - progress) ^ 3)
  (a.start_x + (a.end_x - a.start_x) * eased_progress,
   a.start_y + (a.end_y - a.start_y) * eased_progress)

/-- The animation after n frame ticks (n calls of update). -/
def advanceN (n : ℕ) (a : AnimatedCard) : AnimatedCard :=
  update^[n] a

/-- Screen anchor of the deck (DECK_X in the main program). -/
def DECK_X : ℚ := 850

/-- Screen anchor of the deck (DECK_Y in the main program). -/
def DECK_Y : ℚ := 250

/-- The mutable state owned by the main loop: the deck's card list, the
player's hand (player_cards) and the in-flight animations (animated_cards). -/
structure GameState where
  deck : List Card
  player_cards : List Card
  animated_cards : List AnimatedCard
deriving DecidableEq

/-- The draw-button handler: draw a card from the deck; if a card was
returned, compute the destination slot from the count of hand cards plus
the count of ALL in-flight animations, and append a fromDeck animation;
if the deck was empty only a message is shown and the state is unchanged. -/
def drawCmd (s : GameState) : GameState :=
  match draw_card s.deck with
  | (none, _) => s
  | (some card, rest) =>
      let card_x : ℚ := 50 + (((s.player_cards.length + s.animated_cards.length : ℕ)) : ℚ) * 70
      let card_y : ℚ := 200
      let anim := mkAnimatedCard card DECK_X DECK_Y card_x card_y 30 false
      { s with deck := rest, animated_cards := s.animated_cards ++ [anim] }

/-- The reshuffle-button handler: for every card in the hand (with its
index i giving the on-screen slot 50 + i * 70) append a toDeck animation
back to the deck anchor, then clear the hand.  The deck itself is not
touched here. -/
def reshuffleCmd (s : GameState) : GameState :=
  let batch := s.player_cards.enum.map
    (fun p => mkAnimatedCard p.2 (50 + (p.1 : ℚ) * 70) 200 DECK_X DECK_Y 30 true)
  { s with player_cards := [], animated_cards := s.animated_cards ++ batch }

/-- The per-frame animation pass of the main loop, iterating over a snapshot
of animated_cards while mutating the live list.  Arguments: todo is the
not-yet-processed suffix of the snapshot (still in pre-update state), deck
and hand are the current deck and player_cards, done holds the already
processed survivors (updated, incomplete).  The live list seen by the
all-complete check at any moment is done ++ (updated current) :: todo.
Returns the final deck, hand, surviving animations and the number of times
deck.reset() was invoked; fresh is the shuffled card list a reset installs. -/
def tickAux (fresh : List Card) :
    List AnimatedCard → List Card → List Card → List AnimatedCard →
      List Card × List Card × List AnimatedCard × ℕ
  | [], deck, hand, done => (deck, hand, done, 0)
  | a :: rest, deck, hand, done =>
      let a' := update a
      if is_complete a' = true then
        if a'.to_deck = true then
          if (done ++ a' :: rest).all is_complete = true then
            let r := tickAux fresh rest fresh hand done
            (r.1, r.2.1, r.2.2.1, r.2.2.2 + 1)
          else tickAux fresh rest deck hand done
        else tickAux fresh rest deck (hand ++ [a'.card]) done
      else tickAux fresh rest deck hand (done ++ [a'])

/-- One frame tick together with the number of deck.reset() invocations it
performed. -/
def tickWith (fresh : List Card) (s : GameState) : GameState × ℕ :=
  let r := tickAux fresh s.animated_cards s.deck s.player_cards []
  (⟨r.1, r.2.1, r.2.2.1⟩, r.2.2.2)

/-- One frame tick of the main loop. -/
def tick (fresh : List Card) (s : GameState) : GameState :=
  (tickWith fresh s).1

/-- Number of deck.reset() invocations performed by one frame tick. -/
def tickResetCount (fresh : List Card) (s : GameState) : ℕ :=
  (tickWith fresh s).2

/-- An input event of the main loop: a draw click, a reshuffle click, or one
frame tick (carrying the shuffled list a deck reset would install). -/
inductive Ev
  | draw
  | reshuffle
  | frame (fresh : List Card)

/-- Apply one event to the game state. -/
def applyEv (s : GameState) : Ev → GameState
  | .draw => drawCmd s
  | .reshuffle => reshuffleCmd s
  | .frame fresh => tick fresh s

/-- Run a sequence of events from a state. -/
def run (s : GameState) (evs : List Ev) : GameState :=
  evs.foldl applyEv s

/-- The state at program start: a freshly shuffled deck, empty hand, no
animations.  The argument is the concrete outcome of the initial shuffle. -/
def initState (shuffled : List Card) : GameState :=
  ⟨shuffled, [], []⟩

/-- Total number of cards accounted for by a state: deck plus hand plus one
card per in-flight animation. -/
def cardTotal (s : GameState) : ℕ :=
  s.deck.length + s.player_cards.length + s.animated_cards.length

/-- Iterate t frame ticks, each using the same fresh shuffle outcome. -/
def runTicks (fresh : List Card) (t : ℕ) (s : GameState) : GameState :=
  (tick fresh)^[t] s

/-- The destination slot the draw handler actually computes: hand size plus
the size of the whole in-flight set. -/
def nextSlot (s : GameState) : ℚ :=
  50 + (((s.player_cards.length + s.animated_cards.length : ℕ)) : ℚ) * 70

/-- Modelled from the spec: the destination-slot formula as the spec words
it, counting only the in-flight fromDeck animations next to the hand. -/
def fromDeckSlot (s : GameState) : ℚ :=
  50 + 70 * (((s.player_cards.length
      + (s.animated_cards.filter (fun a => !a.to_deck)).length : ℕ)) : ℚ)

/-- Modelled from the spec: the easing contract in the spec's words; linear
interpolation of start and end by the ease-out-cubic of elapsed/duration. -/
def easeOutCubicLerp (s e : ℚ) (elapsed duration : ℕ) : ℚ :=
  s + (e - s) * (1 - (1 - (elapsed : ℚ) / (duration : ℚ)) ^ 3)

/-- Modelled from the spec: commit pass of the two-phase tick, applied after
every animation has already been advanced; completed animations commit in
creation order and are removed, with the same global all-complete reset gate. -/
def twoPhaseAux (fresh : List Card) :
    List AnimatedCard → List Card → List Card → List AnimatedCard →
      List Card × List Card × List AnimatedCard
  | [], deck, hand, done => (deck, hand, done)
  | a :: rest, deck, hand, done =>
      if is_complete a = true then
        if a.to_deck = true then
          if (done ++ a :: rest).all is_complete = true then
            twoPhaseAux fresh rest fresh hand done
          else twoPhaseAux fresh rest deck hand done
        else twoPhaseAux fresh rest deck (hand ++ [a.card]) done
      else twoPhaseAux fresh rest deck hand (done ++ [a])

/-- Modelled from the spec: the two-phase tick the spec's ordering guarantee
describes; first advance ALL in-flight animations, then apply all
completion-triggered commits. -/
def twoPhaseTick (fresh : List Card) (s : GameState) : GameState :=
  let advanced := s.animated_cards.map update
  let r := twoPhaseAux fresh advanced s.deck s.player_cards []
  ⟨r.1, r.2.1, r.2.2⟩

/-- Whether the last element of a snapshot is a toDeck animation. -/
def lastToDeck (todo : List AnimatedCard) : Bool :=
  match todo.getLast? with
  | some a => a.to_deck
  | none => false

/-- The exact condition under which the animation pass starting from
survivor list done and snapshot suffix todo invokes deck.reset(). -/
def resetFires (done todo : List AnimatedCard) : Bool :=
  done.isEmpty && lastToDeck todo && todo.all (fun a => is_complete (update a))

/-- A reshuffle batch in flight: every animation is toDeck with duration 30
and a common elapsed value e. -/
def batchAt (e : ℕ) (l : List AnimatedCard) : Prop :=
  ∀ a ∈ l, a.to_deck = true ∧ a.duration = 30 ∧ a.elapsed = e

/-- A tiny concrete deck for witnesses. -/
def dtest : List Card :=
  [⟨.HEARTS, .ACE⟩, ⟨.SPADES, .KING⟩]

/-- Command/tick sequence that loses a card: draw a card and let it land,
then in one frame reshuffle the hand and immediately draw again, and let
both in-flight animations run out.  The toDeck return animation completes
while the fromDeck draw animation is (at the moment of the all-complete
check) still incomplete, so deck.reset() never runs. -/
def lostCardTrace : List Ev :=
  [Ev.draw] ++ List.replicate 30 (Ev.frame initialDeckCards)
    ++ [Ev.reshuffle, Ev.draw] ++ List.replicate 30 (Ev.frame initialDeckCards)

/-- Command/tick sequence for the reshuffle-barrier counterexample: a
one-card reshuffle batch is in flight, a draw is issued five frames later,
and the batch's single toDeck animation completes 25 frames after that. -/
def barrierTrace : List Ev :=
  [Ev.draw] ++ List.replicate 30 (Ev.frame initialDeckCards)
    ++ [Ev.reshuffle] ++ List.replicate 5 (Ev.frame initialDeckCards)
    ++ [Ev.draw] ++ List.replicate 25 (Ev.frame initialDeckCards)

/-- Command/tick sequence reaching a state with an empty hand and a single
in-flight toDeck animation, on which a draw is then issued. -/
def slotTrace : List Ev :=
  [Ev.draw] ++ List.replicate 30 (Ev.frame initialDeckCards) ++ [Ev.reshuffle]

/-- The state reached by slotTrace. -/
def slotState : GameState :=
  run (initState initialDeckCards) slotTrace

/-- Command/tick sequence reaching a state in which a toDeck animation and a
younger fromDeck animation are both one frame from completion, the toDeck
one first in creation order. -/
def phaseTrace : List Ev :=
  [Ev.draw] ++ List.replicate 30 (Ev.frame initialDeckCards)
    ++ [Ev.reshuffle, Ev.draw] ++ List.replicate 29 (Ev.frame initialDeckCards)

/-- The state reached by phaseTrace. -/
def phaseState : GameState :=
  run (initState initialDeckCards) phaseTrace

/-- Concrete state for the reset-gate witness: a toDeck animation one frame
from completion ahead of a fromDeck animation with 20 frames left. -/
def gateState : GameState :=
  ⟨dtest, [],
   [advanceN 29 (mkAnimatedCard ⟨.CLUBS, .TEN⟩ 50 200 850 250 30 true),
    advanceN 10 (mkAnimatedCard ⟨.DIAMONDS, .FIVE⟩ 850 250 120 200 30 false)]⟩

set_option maxRecDepth 40000

@[simp]
lemma update_elapsed (a : AnimatedCard) : (update a).elapsed = a.elapsed + 1 :=
  rfl

@[simp]
lemma update_duration (a : AnimatedCard) : (update a).duration = a.duration :=
  rfl

@[simp]
lemma update_to_deck (a : AnimatedCard) : (update a).to_deck = a.to_deck :=
  rfl

@[simp]
lemma update_card (a : AnimatedCard) : (update a).card = a.card :=
  rfl

@[simp]
lemma update_start_x (a : AnimatedCard) : (update a).start_x = a.start_x :=
  rfl

@[simp]
lemma update_start_y (a : AnimatedCard) : (update a).start_y = a.start_y :=
  rfl

@[simp]
lemma update_end_x (a : AnimatedCard) : (update a).end_x = a.end_x :=
  rfl

@[simp]
lemma update_end_y (a : AnimatedCard) : (update a).end_y = a.end_y :=
  rfl

lemma update_flip_angle (a : AnimatedCard) :
    (update a).flip_angle =
      if a.to_deck then (((a.elapsed + 1 : ℕ) : ℚ) / (a.duration : ℚ)) * 180
      else 180 - (((a.elapsed + 1 : ℕ) : ℚ) / (a.duration : ℚ)) * 180 :=
  rfl

@[simp]
lemma is_complete_iff (a : AnimatedCard) :
    is_complete a = true ↔ a.duration ≤ a.elapsed := by
  simp [is_complete]

@[simp]
lemma advanceN_zero (a : AnimatedCard) : advanceN 0 a = a :=
  rfl

lemma advanceN_succ (n : ℕ) (a : AnimatedCard) :
    advanceN (n + 1) a = update (advanceN n a) :=
  Function.iterate_succ_apply' update n a

@[simp]
lemma advanceN_elapsed (n : ℕ) (a : AnimatedCard) :
    (advanceN n a).elapsed = a.elapsed + n := by
  induction n with
  | zero => simp
  | succ m ih => rw [advanceN_succ, update_elapsed, ih]; ring

@[simp]
lemma advanceN_duration (n : ℕ) (a : AnimatedCard) :
    (advanceN n a).duration = a.duration := by
  induction n with
  | zero => simp
  | succ m ih => rw [advanceN_succ, update_duration, ih]

@[simp]
lemma advanceN_to_deck (n : ℕ) (a : AnimatedCard) :
    (advanceN n a).to_deck = a.to_deck := by
  induction n with
  | zero => simp
  | succ m ih => rw [advanceN_succ, update_to_deck, ih]

@[simp]
lemma advanceN_start_x (n : ℕ) (a : AnimatedCard) :
    (advanceN n a).start_x = a.start_x := by
  induction n with
  | zero => simp
  | succ m ih => rw [advanceN_succ, update_start_x, ih]

@[simp]
lemma advanceN_start_y (n : ℕ) (a : AnimatedCard) :
    (advanceN n a).start_y = a.start_y := by
  induction n with
  | zero => simp
  | succ m ih => rw [advanceN_succ, update_start_y, ih]

@[simp]
lemma advanceN_end_x (n : ℕ) (a : AnimatedCard) :
    (advanceN n a).end_x = a.end_x := by
  induction n with
  | zero => simp
  | succ m ih => rw [advanceN_succ, update_end_x, ih]

@[simp]
lemma advanceN_end_y (n : ℕ) (a : AnimatedCard) :
    (advanceN n a).end_y = a.end_y := by
  induction n with
  | zero => simp
  | succ m ih => rw [advanceN_succ, update_end_y, ih]

@[simp]
lemma mk_elapsed (c : Card) (sx sy ex ey : ℚ) (D : ℕ) (td : Bool) :
    (mkAnimatedCard c sx sy ex ey D td).elapsed = 0 :=
  rfl

@[simp]
lemma mk_duration (c : Card) (sx sy ex ey : ℚ) (D : ℕ) (td : Bool) :
    (mkAnimatedCard c sx sy ex ey D td).duration = D :=
  rfl

@[simp]
lemma mk_to_deck (c : Card) (sx sy ex ey : ℚ) (D : ℕ) (td : Bool) :
    (mkAnimatedCard c sx sy ex ey D td).to_deck = td :=
  rfl

@[simp]
lemma mk_start_x (c : Card) (sx sy ex ey : ℚ) (D : ℕ) (td : Bool) :
    (mkAnimatedCard c sx sy ex ey D td).start_x = sx :=
  rfl

@[simp]
lemma mk_start_y (c : Card) (sx sy ex ey : ℚ) (D : ℕ) (td : Bool) :
    (mkAnimatedCard c sx sy ex ey D td).start_y = sy :=
  rfl

@[simp]
lemma mk_end_x (c : Card) (sx sy ex ey : ℚ) (D : ℕ) (td : Bool) :
    (mkAnimatedCard c sx sy ex ey D td).end_x = ex :=
  rfl

@[simp]
lemma mk_end_y (c : Card) (sx sy ex ey : ℚ) (D : ℕ) (td : Bool) :
    (mkAnimatedCard c sx sy ex ey D td).end_y = ey :=
  rfl

@[simp]
lemma mk_card (c : Card) (sx sy ex ey : ℚ) (D : ℕ) (td : Bool) :
    (mkAnimatedCard c sx sy ex ey D td).card = c :=
  rfl

lemma draw_card_of_ne_nil (cards : List Card) (h : cards ≠ []) :
    draw_card cards = (some (cards.getLast h), cards.dropLast) := by
  simp [draw_card, h, List.getLast?_eq_getLast _ h]

/-- C5. Deck completeness: any deck produced by Deck._initialize_deck (a
permutation of the 52-card nested-loop product, as built at construction and
by every Deck.reset) has 52 cards remaining and contains each suit-rank
combination exactly once, with no duplicates. -/
theorem deck_completeness (l : List Card) (hl : l.Perm initialDeckCards) :
    cards_remaining l = 52 ∧ l.Nodup ∧ ∀ c : Card, l.count c = 1 := by
  have h52 : initialDeckCards.length = 52 := by decide
  have hnd : initialDeckCards.Nodup := by decide
  refine ⟨by simp [cards_remaining, hl.length_eq, h52], hl.nodup_iff.mpr hnd, ?_⟩
  intro c
  rw [hl.count_eq]
  have hc : c ∈ initialDeckCards := by
    rcases c with ⟨s, r⟩
    cases s <;> cases r <;> decide
  exact List.count_eq_one_of_mem hnd hc

/-- Witness for deck_completeness at the identity shuffle. -/
theorem deck_completeness_witness :
    cards_remaining initialDeckCards = 52 ∧ initialDeckCards.Nodup ∧
      ∀ c : Card, initialDeckCards.count c = 1 :=
  deck_completeness initialDeckCards (List.Perm.refl _)

/-- C6. Draw behaviour: on a non-empty deck, draw_card removes and returns
the card at the end of the sequence, leaving the remaining cards unchanged
and in order (the deck is exactly that remainder followed by the drawn
card); on an empty deck it returns the none sentinel and leaves the deck
unchanged. -/
theorem draw_card_spec (cards : List Card) :
    (∀ h : cards ≠ [],
        draw_card cards = (some (cards.getLast h), cards.dropLast) ∧
        cards.dropLast ++ [cards.getLast h] = cards) ∧
    (cards = [] → draw_card cards = (none, cards)) := by
  constructor
  · intro h
    exact ⟨draw_card_of_ne_nil cards h, List.dropLast_append_getLast h⟩
  · intro h
    subst h
    rfl

lemma dtest_ne : dtest ≠ [] := by decide

/-- Witness for draw_card_spec on a concrete two-card deck. -/
theorem draw_card_spec_witness :
    draw_card dtest = (some (dtest.getLast dtest_ne), dtest.dropLast) ∧
      dtest.dropLast ++ [dtest.getLast dtest_ne] = dtest :=
  (draw_card_spec dtest).1 dtest_ne

lemma advanceN_flip (a : AnimatedCard) (n : ℕ) :
    (advanceN (n + 1) a).flip_angle =
      if a.to_deck then (((a.elapsed + (n + 1) : ℕ)) : ℚ) / (a.duration : ℚ) * 180
      else 180 - (((a.elapsed + (n + 1) : ℕ)) : ℚ) / (a.duration : ℚ) * 180 := by
  rw [advanceN_succ, update_flip_angle]
  simp [Nat.add_assoc]

/-- C7. Animation completion law: an animation built with duration D and
advanced once per tick has elapsed = n after n updates, each update adds
exactly one with no clamping, is_complete holds exactly when n has reached D
(so first at n = D, never before), and get_position is exactly the start
point before any advance and exactly the end point after D advances. -/
theorem animation_completion_law (c : Card) (sx sy ex ey : ℚ) (D n : ℕ)
    (td : Bool) (hD : 0 < D) :
    (advanceN n (mkAnimatedCard c sx sy ex ey D td)).elapsed = n ∧
    (update (advanceN n (mkAnimatedCard c sx sy ex ey D td))).elapsed
      = (advanceN n (mkAnimatedCard c sx sy ex ey D td)).elapsed + 1 ∧
    (is_complete (advanceN n (mkAnimatedCard c sx sy ex ey D td)) = true ↔ D ≤ n) ∧
    get_position (mkAnimatedCard c sx sy ex ey D td) = (sx, sy) ∧
    get_position (advanceN D (mkAnimatedCard c sx sy ex ey D td)) = (ex, ey) := by
  have hD0 : ((D : ℕ) : ℚ) ≠ 0 := Nat.cast_ne_zero.mpr hD.ne'
  refine ⟨by simp, by simp, by simp, ?_, ?_⟩
  · simp [get_position, mkAnimatedCard]
  · simp [get_position, advanceN_elapsed, advanceN_duration, advanceN_start_x,
      advanceN_start_y, advanceN_end_x, advanceN_end_y, div_self hD0]

/-- Witness for animation_completion_law at duration 30, seven ticks in. -/
theorem animation_completion_law_witness :
    0 < 30 ∧
    ((advanceN 7 (mkAnimatedCard ⟨.HEARTS, .ACE⟩ 850 250 50 200 30 false)).elapsed = 7 ∧
    (update (advanceN 7 (mkAnimatedCard ⟨.HEARTS, .ACE⟩ 850 250 50 200 30 false))).elapsed
      = (advanceN 7 (mkAnimatedCard ⟨.HEARTS, .ACE⟩ 850 250 50 200 30 false)).elapsed + 1 ∧
    (is_complete (advanceN 7 (mkAnimatedCard ⟨.HEARTS, .ACE⟩ 850 250 50 200 30 false)) = true ↔ 30 ≤ 7) ∧
    get_position (mkAnimatedCard ⟨.HEARTS, .ACE⟩ 850 250 50 200 30 false) = (850, 250) ∧
    get_position (advanceN 30 (mkAnimatedCard ⟨.HEARTS, .ACE⟩ 850 250 50 200 30 false)) = (50, 200)) :=
  ⟨by decide, animation_completion_law ⟨.HEARTS, .ACE⟩ 850 250 50 200 30 7 false (by decide)⟩

/-- C8. Easing formula: on each axis get_position is exactly linear
interpolation from start to end by the ease-out-cubic of
progress = elapsed / duration, over exact rationals, for every animation
state (over-advanced ones included). -/
theorem easing_formula (a : AnimatedCard) :
    get_position a =
      (easeOutCubicLerp a.start_x a.end_x a.elapsed a.duration,
       easeOutCubicLerp a.start_y a.end_y a.elapsed a.duration) :=
  rfl

/-- C9. Flip law: with 0 ≤ n ≤ D ticks elapsed, a fromDeck animation's flip
angle is 180 * (1 - n / D) and a toDeck animation's is 180 * (n / D); both
lie in [0, 180]; and the angle stored at construction equals the law at
elapsed 0 (180 for fromDeck, 0 for toDeck). -/
theorem flip_law (c : Card) (sx sy ex ey : ℚ) (D n : ℕ)
    (hD : 0 < D) (hn : n ≤ D) :
    (advanceN n (mkAnimatedCard c sx sy ex ey D false)).flip_angle
        = 180 * (1 - (n : ℚ) / (D : ℚ)) ∧
    (advanceN n (mkAnimatedCard c sx sy ex ey D true)).flip_angle
        = 180 * ((n : ℚ) / (D : ℚ)) ∧
    (0 ≤ 180 * (1 - (n : ℚ) / (D : ℚ)) ∧ 180 * (1 - (n : ℚ) / (D : ℚ)) ≤ 180) ∧
    (0 ≤ 180 * ((n : ℚ) / (D : ℚ)) ∧ 180 * ((n : ℚ) / (D : ℚ)) ≤ 180) ∧
    (mkAnimatedCard c sx sy ex ey D false).flip_angle = 180 ∧
    (mkAnimatedCard c sx sy ex ey D true).flip_angle = 0 := by
  have hD0 : ((D : ℕ) : ℚ) > 0 := by positivity
  have h0 : (0 : ℚ) ≤ (n : ℚ) / (D : ℚ) := div_nonneg (by positivity) (le_of_lt hD0)
  have h1 : (n : ℚ) / (D : ℚ) ≤ 1 :=
    div_le_one_of_le₀ (by exact_mod_cast hn) (le_of_lt hD0)
  refine ⟨?_, ?_, ⟨by nlinarith, by nlinarith⟩, ⟨by nlinarith, by nlinarith⟩, rfl, rfl⟩
  · cases n with
    | zero => simp [mkAnimatedCard]
    | succ m =>
        rw [advanceN_flip]
        simp only [mk_elapsed, mk_duration, mk_to_deck, Bool.false_eq_true, if_false]
        push_cast
        ring
  · cases n with
    | zero => simp [mkAnimatedCard]
    | succ m =>
        rw [advanceN_flip]
        simp only [mk_elapsed, mk_duration, mk_to_deck, if_true]
        push_cast
        ring

/-- Witness for flip_law at duration 30, fifteen ticks in. -/
theorem flip_law_witness :
    (0 < 30 ∧ 15 ≤ 30) ∧
    (advanceN 15 (mkAnimatedCard ⟨.HEARTS, .ACE⟩ 850 250 50 200 30 false)).flip_angle
        = 180 * (1 - (15 : ℚ) / (30 : ℚ)) ∧
    (advanceN 15 (mkAnimatedCard ⟨.HEARTS, .ACE⟩ 850 250 50 200 30 true)).flip_angle
        = 180 * ((15 : ℚ) / (30 : ℚ)) :=
  ⟨⟨by decide, by decide⟩,
    (flip_law ⟨.HEARTS, .ACE⟩ 850 250 50 200 30 15 (by decide) (by decide)).1,
    ((flip_law ⟨.HEARTS, .ACE⟩ 850 250 50 200 30 15 (by decide) (by decide)).2).1⟩

lemma tickAux_nil (fresh deck hand : List Card) (done : List AnimatedCard) :
    tickAux fresh [] deck hand done = (deck, hand, done, 0) :=
  rfl

lemma tickAux_cons_incomplete (fresh deck hand : List Card)
    (done : List AnimatedCard) (a : AnimatedCard) (rest : List AnimatedCard)
    (h : is_complete (update a) = false) :
    tickAux fresh (a :: rest) deck hand done
      = tickAux fresh rest deck hand (done ++ [update a]) := by
  simp only [tickAux]
  rw [if_neg (by simp [h])]

lemma tickAux_cons_fromDeck (fresh deck hand : List Card)
    (done : List AnimatedCard) (a : AnimatedCard) (rest : List AnimatedCard)
    (h1 : is_complete (update a) = true) (h2 : (update a).to_deck = false) :
    tickAux fresh (a :: rest) deck hand done
      = tickAux fresh rest deck (hand ++ [(update a).card]) done := by
  simp only [tickAux]
  rw [if_pos h1, if_neg (by rw [h2]; simp)]

lemma tickAux_cons_toDeck_fires (fresh deck hand : List Card)
    (done : List AnimatedCard) (a : AnimatedCard) (rest : List AnimatedCard)
    (h1 : is_complete (update a) = true) (h2 : (update a).to_deck = true)
    (h3 : (done ++ update a :: rest).all is_complete = true) :
    tickAux fresh (a :: rest) deck hand done
      = ((tickAux fresh rest fresh hand done).1,
         (tickAux fresh rest fresh hand done).2.1,
         (tickAux fresh rest fresh hand done).2.2.1,
         (tickAux fresh rest fresh hand done).2.2.2 + 1) := by
  simp only [tickAux]
  rw [if_pos h1, if_pos h2, if_pos h3]

lemma tickAux_cons_toDeck_skip (fresh deck hand : List Card)
    (done : List AnimatedCard) (a : AnimatedCard) (rest : List AnimatedCard)
    (h1 : is_complete (update a) = true) (h2 : (update a).to_deck = true)
    (h3 : (done ++ update a :: rest).all is_complete = false) :
    tickAux fresh (a :: rest) deck hand done
      = tickAux fresh rest deck hand done := by
  simp only [tickAux]
  rw [if_pos h1, if_pos h2, if_neg (by simp [h3])]

lemma tickAux_hand (todo : List AnimatedCard) :
    ∀ (fresh deck hand : List Card) (done : List AnimatedCard),
      (tickAux fresh todo deck hand done).2.1
        = hand ++ ((todo.filter (fun a => !a.to_deck && is_complete (update a))).map
            (fun a => a.card)) := by
  induction todo with
  | nil => intro fresh deck hand done; simp [tickAux_nil]
  | cons a rest ih =>
      intro fresh deck hand done
      by_cases hc : is_complete (update a) = true
      · by_cases ht : (update a).to_deck = true
        · have hta : a.to_deck = true := by rwa [update_to_deck] at ht
          by_cases hall : (done ++ update a :: rest).all is_complete = true
          · rw [tickAux_cons_toDeck_fires fresh deck hand done a rest hc ht hall]
            simp only [List.filter_cons, hta, hc, Bool.not_true, Bool.false_and]
            exact ih fresh fresh hand done
          · rw [tickAux_cons_toDeck_skip fresh deck hand done a rest hc ht
              (Bool.eq_false_iff.mpr hall)]
            simp only [List.filter_cons, hta, hc, Bool.not_true, Bool.false_and]
            exact ih fresh deck hand done
        · have hta : a.to_deck = false := Bool.eq_false_iff.mpr
            (fun hcontra => ht (by rwa [update_to_deck]))
          rw [tickAux_cons_fromDeck fresh deck hand done a rest hc
            (by rwa [update_to_deck])]
          rw [ih fresh deck (hand ++ [(update a).card]) done]
          simp [List.filter_cons, hta, hc]
      · have hcf : is_complete (update a) = false := Bool.eq_false_iff.mpr hc
        rw [tickAux_cons_incomplete fresh deck hand done a rest hcf]
        rw [ih fresh deck hand (done ++ [update a])]
        simp [List.filter_cons, hcf]

lemma tickAux_all_incomplete (todo : List AnimatedCard)
    (h : ∀ a ∈ todo, is_complete (update a) = false) :
    ∀ (fresh deck hand : List Card) (done : List AnimatedCard),
      tickAux fresh todo deck hand done = (deck, hand, done ++ todo.map update, 0) := by
  induction todo with
  | nil => intro fresh deck hand done; simp [tickAux_nil]
  | cons a rest ih =>
      intro fresh deck hand done
      rw [tickAux_cons_incomplete fresh deck hand done a rest (h a (by simp))]
      rw [ih (fun x hx => h x (by simp [hx]))]
      simp

lemma tickAux_batch_completes (todo : List AnimatedCard) (hne : todo ≠ [])
    (h : ∀ a ∈ todo, a.to_deck = true ∧ is_complete (update a) = true ∧
      is_complete a = false) :
    ∀ (fresh deck hand : List Card),
      tickAux fresh todo deck hand [] = (fresh, hand, [], 1) := by
  induction todo with
  | nil => exact absurd rfl hne
  | cons a rest ih =>
      intro fresh deck hand
      obtain ⟨hta, hca, _⟩ := h a (by simp)
      have hta2 : (update a).to_deck = true := by rwa [update_to_deck]
      cases rest with
      | nil =>
          rw [tickAux_cons_toDeck_fires fresh deck hand [] a [] hca hta2 (by simp [hca])]
          simp [tickAux_nil]
      | cons b t =>
          have hbinc : is_complete b = false := (h b (by simp)).2.2
          have hall : ([] ++ update a :: b :: t).all is_complete = false := by
            simp [hbinc]
          rw [tickAux_cons_toDeck_skip fresh deck hand [] a (b :: t) hca hta2 hall]
          exact ih (by simp) (fun x hx => h x (by simp [hx])) fresh deck hand

@[simp]
lemma lastToDeck_nil : lastToDeck [] = false :=
  rfl

@[simp]
lemma lastToDeck_singleton (a : AnimatedCard) : lastToDeck [a] = a.to_deck :=
  rfl

@[simp]
lemma lastToDeck_cons_cons (a b : AnimatedCard) (t : List AnimatedCard) :
    lastToDeck (a :: b :: t) = lastToDeck (b :: t) := by
  simp [lastToDeck, List.getLast?_cons_cons]

lemma tickAux_count (todo : List AnimatedCard) :
    ∀ (fresh deck hand : List Card) (done : List AnimatedCard),
      (∀ a ∈ done, is_complete a = false) →
      (∀ a ∈ todo, is_complete a = false) →
      (tickAux fresh todo deck hand done).2.2.2
        = if resetFires done todo = true then 1 else 0 := by
  induction todo with
  | nil =>
      intro fresh deck hand done hd ht
      simp [tickAux_nil, resetFires]
  | cons a rest ih =>
      intro fresh deck hand done hd ht
      by_cases hc : is_complete (update a) = true
      · by_cases hta : (update a).to_deck = true
        · by_cases hall : (done ++ update a :: rest).all is_complete = true
          · have hall' := List.all_eq_true.mp hall
            have hdone_nil : done = [] := by
              cases done with
              | nil => rfl
              | cons x xs =>
                  have h1 := hall' x (by simp)
                  have h2 := hd x (by simp)
                  rw [h1] at h2
                  exact absurd h2 (by simp)
            have hrest_nil : rest = [] := by
              cases rest with
              | nil => rfl
              | cons x xs =>
                  have h1 := hall' x (by simp)
                  have h2 := ht x (by simp)
                  rw [h1] at h2
                  exact absurd h2 (by simp)
            subst hdone_nil
            subst hrest_nil
            rw [tickAux_cons_toDeck_fires fresh deck hand [] a [] hc hta hall]
            have hta2 : a.to_deck = true := by rwa [update_to_deck] at hta
            simp [tickAux_nil, resetFires, hta2, hc]
          · have hallf : (done ++ update a :: rest).all is_complete = false :=
              Bool.eq_false_iff.mpr hall
            rw [tickAux_cons_toDeck_skip fresh deck hand done a rest hc hta hallf]
            rw [ih fresh deck hand done hd (fun x hx => ht x (by simp [hx]))]
            cases rest with
            | nil =>
                have hdone_ne : done ≠ [] := by
                  intro hcontra
                  subst hcontra
                  simp [hc] at hallf
                have hie : done.isEmpty = false := by
                  cases done with
                  | nil => exact absurd rfl hdone_ne
                  | cons x xs => rfl
                simp [resetFires, hie]
            | cons b t =>
                simp [resetFires, hc]
        · have hta2 : a.to_deck = false := Bool.eq_false_iff.mpr
            (fun hcontra => hta (by rwa [update_to_deck]))
          rw [tickAux_cons_fromDeck fresh deck hand done a rest hc
            (by rwa [update_to_deck])]
          rw [ih fresh deck (hand ++ [(update a).card]) done hd
            (fun x hx => ht x (by simp [hx]))]
          cases rest with
          | nil => simp [resetFires, hta2]
          | cons b t => simp [resetFires, hc]
      · have hcf : is_complete (update a) = false := Bool.eq_false_iff.mpr hc
        rw [tickAux_cons_incomplete fresh deck hand done a rest hcf]
        have hd2 : ∀ x ∈ done ++ [update a], is_complete x = false := by
          intro x hx
          rcases List.mem_append.mp hx with hx1 | hx2
          · exact hd x hx1
          · rw [List.mem_singleton.mp hx2]
            exact hcf
        rw [ih fresh deck hand (done ++ [update a]) hd2
          (fun x hx => ht x (by simp [hx]))]
        have hie : (done ++ [update a]).isEmpty = false := by
          cases done with
          | nil => rfl
          | cons x xs => rfl
        simp [resetFires, hie, hcf]

lemma resetFires_nil_iff (todo : List AnimatedCard) :
    resetFires [] todo = true ↔
      lastToDeck todo = true ∧ ∀ a ∈ todo, a.duration ≤ a.elapsed + 1 := by
  simp [resetFires, List.all_eq_true]

lemma tickResetCount_eq (fresh : List Card) (s : GameState)
    (hInv : ∀ a ∈ s.animated_cards, a.elapsed < a.duration) :
    tickResetCount fresh s
      = if resetFires [] s.animated_cards = true then 1 else 0 := by
  have hincomp : ∀ a ∈ s.animated_cards, is_complete a = false := by
    intro a ha
    have := hInv a ha
    simp [is_complete]
    omega
  exact tickAux_count s.animated_cards fresh s.deck s.player_cards []
    (by simp) hincomp

lemma tick_batch_advance (fresh : List Card) (s : GameState) (e : ℕ)
    (hb : batchAt e s.animated_cards) (he : e + 1 < 30) :
    tick fresh s = ⟨s.deck, s.player_cards, s.animated_cards.map update⟩ ∧
    tickResetCount fresh s = 0 ∧
    batchAt (e + 1) (s.animated_cards.map update) ∧
    (s.animated_cards.map update).length = s.animated_cards.length := by
  have hinc : ∀ a ∈ s.animated_cards, is_complete (update a) = false := by
    intro a ha
    obtain ⟨-, hdur, hel⟩ := hb a ha
    simp [is_complete, hdur, hel]
    omega
  have haux := tickAux_all_incomplete s.animated_cards hinc fresh s.deck
    s.player_cards []
  refine ⟨?_, ?_, ?_, by simp⟩
  · show (tickWith fresh s).1 = _
    simp [tickWith, haux]
  · show (tickWith fresh s).2 = 0
    simp [tickWith, haux]
  · intro a ha
    obtain ⟨x, hx, rfl⟩ := List.mem_map.mp ha
    obtain ⟨ht, hdur, hel⟩ := hb x hx
    exact ⟨by simp [ht], by simp [hdur], by simp [hel]⟩

lemma tick_batch_final (fresh : List Card) (s : GameState)
    (hne : s.animated_cards ≠ []) (hb : batchAt 29 s.animated_cards) :
    tick fresh s = ⟨fresh, s.player_cards, []⟩ ∧ tickResetCount fresh s = 1 := by
  have h : ∀ a ∈ s.animated_cards, a.to_deck = true ∧
      is_complete (update a) = true ∧ is_complete a = false := by
    intro a ha
    obtain ⟨ht, hdur, hel⟩ := hb a ha
    exact ⟨ht, by simp [is_complete, hdur, hel], by simp [is_complete, hdur, hel]⟩
  have haux := tickAux_batch_completes s.animated_cards hne h fresh s.deck
    s.player_cards
  exact ⟨by simp [tick, tickWith, haux], by simp [tickResetCount, tickWith, haux]⟩

lemma runTicks_batch (fresh d hand : List Card) (batch : List AnimatedCard)
    (hb : batchAt 0 batch) (t : ℕ) (ht : t ≤ 29) :
    (runTicks fresh t ⟨d, hand, batch⟩).deck = d ∧
    (runTicks fresh t ⟨d, hand, batch⟩).player_cards = hand ∧
    batchAt t (runTicks fresh t ⟨d, hand, batch⟩).animated_cards ∧
    (runTicks fresh t ⟨d, hand, batch⟩).animated_cards.length = batch.length := by
  induction t with
  | zero => exact ⟨rfl, rfl, hb, rfl⟩
  | succ m ih =>
      obtain ⟨hd, hh, hbm, hl⟩ := ih (by omega)
      have hstep := tick_batch_advance fresh (runTicks fresh m ⟨d, hand, batch⟩)
        m hbm (by omega)
      have hsucc : runTicks fresh (m + 1) ⟨d, hand, batch⟩
          = tick fresh (runTicks fresh m ⟨d, hand, batch⟩) :=
        Function.iterate_succ_apply' _ m _
      rw [hsucc, hstep.1]
      exact ⟨hd, hh, hstep.2.2.1, by simp [hl]⟩

lemma batchAt_reshuffle (d h : List Card) :
    batchAt 0 (reshuffleCmd ⟨d, h, []⟩).animated_cards := by
  intro a ha
  simp only [reshuffleCmd, List.nil_append] at ha
  obtain ⟨p, hp, rfl⟩ := List.mem_map.mp ha
  exact ⟨rfl, rfl, rfl⟩

lemma reshuffle_state (d h : List Card) :
    reshuffleCmd ⟨d, h, []⟩
      = ⟨d, [], h.enum.map (fun p =>
          mkAnimatedCard p.2 (50 + (p.1 : ℚ) * 70) 200 DECK_X DECK_Y 30 true)⟩ := by
  simp [reshuffleCmd]

/-- C2 (amended). Reshuffle barrier for an isolated batch: after a reshuffle
command turns a non-empty hand into a batch of toDeck animations and no
other animation is in flight (and no further command intervenes),
deck.reset() is not invoked on any of the first 29 frame ticks, it is
invoked exactly once on the 30th tick (the one on which the batch
completes), and immediately afterwards the deck is a fresh 52-card shuffle
and the hand is empty. -/
theorem reshuffle_barrier_batch_only (d h fresh : List Card) (t : ℕ)
    (hh : h ≠ []) (hfresh : fresh.Perm initialDeckCards) (ht : t ≤ 28) :
    tickResetCount fresh (runTicks fresh t (reshuffleCmd ⟨d, h, []⟩)) = 0 ∧
    tickResetCount fresh (runTicks fresh 29 (reshuffleCmd ⟨d, h, []⟩)) = 1 ∧
    runTicks fresh 30 (reshuffleCmd ⟨d, h, []⟩) = ⟨fresh, [], []⟩ ∧
    (runTicks fresh 30 (reshuffleCmd ⟨d, h, []⟩)).deck.length = 52 ∧
    (runTicks fresh 30 (reshuffleCmd ⟨d, h, []⟩)).player_cards = [] := by
  have hb := batchAt_reshuffle d h
  have hrs := reshuffle_state d h
  have hlen : (reshuffleCmd ⟨d, h, []⟩).animated_cards.length = h.length := by
    rw [hrs]
    simp
  have hfull := fun (u : ℕ) (hu : u ≤ 29) => by
    have := runTicks_batch fresh d []
      (reshuffleCmd ⟨d, h, []⟩).animated_cards hb u hu
    rwa [show (⟨d, [], (reshuffleCmd ⟨d, h, []⟩).animated_cards⟩ : GameState)
        = reshuffleCmd ⟨d, h, []⟩ by rw [hrs]] at this
  obtain ⟨hd29, hh29, hb29, hl29⟩ := hfull 29 (by omega)
  have hne29 : (runTicks fresh 29 (reshuffleCmd ⟨d, h, []⟩)).animated_cards ≠ [] := by
    intro hcontra
    rw [hcontra] at hl29
    simp at hl29
    rw [hlen] at hl29
    exact hh (List.length_eq_zero.mp hl29.symm)
  have hfin := tick_batch_final fresh (runTicks fresh 29 (reshuffleCmd ⟨d, h, []⟩))
    hne29 hb29
  have h30 : runTicks fresh 30 (reshuffleCmd ⟨d, h, []⟩)
      = tick fresh (runTicks fresh 29 (reshuffleCmd ⟨d, h, []⟩)) :=
    Function.iterate_succ_apply' _ 29 _
  have h30eq : runTicks fresh 30 (reshuffleCmd ⟨d, h, []⟩) = ⟨fresh, [], []⟩ := by
    rw [h30, hfin.1, hh29]
  refine ⟨?_, hfin.2, h30eq, ?_, by rw [h30eq]⟩
  · obtain ⟨hdt, hht, hbt, hlt⟩ := hfull t (by omega)
    exact (tick_batch_advance fresh (runTicks fresh t (reshuffleCmd ⟨d, h, []⟩))
      t hbt (by omega)).2.1
  · rw [h30eq]
    have : fresh.length = initialDeckCards.length := hfresh.length_eq
    simp only [this]
    decide

/-- Witness for reshuffle_barrier_batch_only: a one-card hand, the identity
shuffle, checked at tick 0. -/
theorem reshuffle_barrier_batch_only_witness :
    (([⟨.HEARTS, .ACE⟩] : List Card) ≠ [] ∧ (0 : ℕ) ≤ 28) ∧
    (tickResetCount initialDeckCards
        (runTicks initialDeckCards 0 (reshuffleCmd ⟨[], [⟨.HEARTS, .ACE⟩], []⟩)) = 0 ∧
    tickResetCount initialDeckCards
        (runTicks initialDeckCards 29 (reshuffleCmd ⟨[], [⟨.HEARTS, .ACE⟩], []⟩)) = 1 ∧
    runTicks initialDeckCards 30 (reshuffleCmd ⟨[], [⟨.HEARTS, .ACE⟩], []⟩)
        = ⟨initialDeckCards, [], []⟩ ∧
    (runTicks initialDeckCards 30 (reshuffleCmd ⟨[], [⟨.HEARTS, .ACE⟩], []⟩)).deck.length = 52 ∧
    (runTicks initialDeckCards 30 (reshuffleCmd ⟨[], [⟨.HEARTS, .ACE⟩], []⟩)).player_cards = []) :=
  ⟨⟨by decide, by decide⟩,
    reshuffle_barrier_batch_only [] [⟨.HEARTS, .ACE⟩] initialDeckCards 0
      (by decide) (List.Perm.refl _) (by decide)⟩

/-- C2 (counterexample). The claim as stated fails: after lostCardTrace has
set up a one-card reshuffle batch together with a younger in-flight
fromDeck draw animation, the tick on which the batch's last (and only)
toDeck animation completes does NOT invoke deck.reset(): after barrierTrace
the toDeck animation is gone, only the fromDeck animation remains, yet the
deck still has 50 cards rather than 52, and a card has been lost. -/
theorem reshuffle_barrier_counterexample :
    (run (initState initialDeckCards) barrierTrace).deck.length = 50 ∧
    (run (initState initialDeckCards) barrierTrace).player_cards = [] ∧
    (run (initState initialDeckCards) barrierTrace).animated_cards.map
        (fun a => a.to_deck) = [false] ∧
    cardTotal (run (initState initialDeckCards) barrierTrace) = 51 := by
  decide

/-- C1. Conservation is violated by the code: running lostCardTrace from a
fresh deck (draw; let it land; reshuffle and draw in the same frame; let
both animations run out) ends with 50 cards in the deck, 1 card in the
hand, no animation in flight - 51 cards in total, not 52.  The toDeck
return animation completed while the fromDeck animation was still
incomplete at the moment of the all-complete check, so deck.reset() never
ran and the returned card vanished. -/
theorem conservation_violated :
    cardTotal (run (initState initialDeckCards) lostCardTrace) = 51 ∧
    (run (initState initialDeckCards) lostCardTrace).deck.length = 50 ∧
    (run (initState initialDeckCards) lostCardTrace).player_cards.length = 1 ∧
    (run (initState initialDeckCards) lostCardTrace).animated_cards = [] := by
  decide

/-- C3 (counterexample). The claim's slot formula is wrong: in the reachable
state slotState (empty hand, one in-flight toDeck animation, non-empty
deck), the draw handler gives the new fromDeck animation destination
x-coordinate 120 = 50 + 70 * (0 + 1), counting the toDeck animation,
whereas the spec's formula counting only fromDeck animations yields 50. -/
theorem draw_slot_counterexample :
    slotState.player_cards = [] ∧
    slotState.animated_cards.map (fun a => a.to_deck) = [true] ∧
    slotState.deck.length = 51 ∧
    ((drawCmd slotState).animated_cards.getLast?.map (fun a => a.end_x))
        = some 120 ∧
    fromDeckSlot slotState = 50 ∧ (120 : ℚ) ≠ 50 := by
  have hhand : slotState.player_cards = [] := by decide
  have hmap : slotState.animated_cards.map (fun a => a.to_deck) = [true] := by
    decide
  have hdeck : slotState.deck.length = 51 := by decide
  have hne : slotState.deck ≠ [] := by decide
  have hl1 : slotState.player_cards.length = 0 := by decide
  have hl2 : slotState.animated_cards.length = 1 := by decide
  have hl3 : (slotState.animated_cards.filter (fun a => !a.to_deck)).length = 0 := by
    decide
  have hcmd : drawCmd slotState
      = { slotState with
          deck := slotState.deck.dropLast
          animated_cards := (slotState.animated_cards
            ++ [mkAnimatedCard (slotState.deck.getLast hne) DECK_X DECK_Y
                (50 + (((slotState.player_cards.length
                  + slotState.animated_cards.length : ℕ)) : ℚ) * 70) 200 30 false]) } := by
    simp only [drawCmd, draw_card_of_ne_nil slotState.deck hne]
  refine ⟨hhand, hmap, hdeck, ?_, ?_, by norm_num⟩
  · rw [hcmd]
    simp only [List.getLast?_concat, Option.map_some, mk_end_x, hl1, hl2]
    norm_num
  · rw [fromDeckSlot, hl1, hl3]
    norm_num

/-- C3 (amended). Draw destination slot: issuing a draw on a non-empty deck
appends one fromDeck animation whose destination x-coordinate is
50 + (hand size + size of the WHOLE in-flight set) * 70, and the slot value
of the successor state is exactly 70 further right, so consecutive draws
land on consecutive distinct slots. -/
theorem draw_slot_formula (s : GameState) (h : s.deck ≠ []) :
    (drawCmd s).animated_cards
        = s.animated_cards
          ++ [mkAnimatedCard (s.deck.getLast h) DECK_X DECK_Y (nextSlot s) 200 30 false] ∧
    nextSlot (drawCmd s) = nextSlot s + 70 := by
  have hd := draw_card_of_ne_nil s.deck h
  have hcmd : drawCmd s
      = { s with
          deck := s.deck.dropLast
          animated_cards := (s.animated_cards
            ++ [mkAnimatedCard (s.deck.getLast h) DECK_X DECK_Y (nextSlot s) 200 30 false]) } := by
    simp only [drawCmd, hd, nextSlot]
  refine ⟨by rw [hcmd], ?_⟩
  rw [hcmd]
  simp only [nextSlot, List.length_append, List.length_singleton]
  push_cast
  ring

lemma initState_dtest_ne : (initState dtest).deck ≠ [] := by
  decide

/-- Witness for draw_slot_formula on the concrete two-card deck. -/
theorem draw_slot_formula_witness :
    (drawCmd (initState dtest)).animated_cards
        = (initState dtest).animated_cards
          ++ [mkAnimatedCard ((initState dtest).deck.getLast initState_dtest_ne)
              DECK_X DECK_Y (nextSlot (initState dtest)) 200 30 false] ∧
    nextSlot (drawCmd (initState dtest)) = nextSlot (initState dtest) + 70 :=
  draw_slot_formula (initState dtest) initState_dtest_ne

/-- C4 (counterexample). The code's tick is not the advance-all-then-commit
two-phase tick the claim describes: in the reachable state phaseState (a
toDeck animation then a fromDeck animation, both one frame from
completion), the code's tick leaves the deck at 50 cards (no reset, the
fromDeck animation was still un-advanced at the toDeck commit's
all-complete check) while the two-phase tick resets it to 52; the resulting
states differ. -/
theorem tick_not_two_phase :
    phaseState.animated_cards.map (fun a => (a.to_deck, a.elapsed, a.duration))
        = [(true, 29, 30), (false, 29, 30)] ∧
    (tick initialDeckCards phaseState).deck.length = 50 ∧
    (twoPhaseTick initialDeckCards phaseState).deck.length = 52 ∧
    tick initialDeckCards phaseState ≠ twoPhaseTick initialDeckCards phaseState := by
  decide

/-- C4 (amended). Per-tick commit order: the tick processes the in-flight
list in creation order, advancing each animation and applying its
completion commit immediately; consequently the cards appended to the hand
in one tick are exactly the cards of the fromDeck animations that complete
on that tick, appended in creation order, so cards drawn in succession land
in the hand in draw order. -/
theorem tick_commit_order (fresh : List Card) (s : GameState) :
    (tick fresh s).player_cards = s.player_cards ++
      ((s.animated_cards.filter (fun a => !a.to_deck && is_complete (update a))).map
        (fun a => a.card)) :=
  tickAux_hand s.animated_cards fresh s.deck s.player_cards []

/-- C10. Reset gate: for any state whose in-flight animations are all
strictly unfinished (as every reachable state's are), one tick invokes
deck.reset() at most once; if any animation still has frames left after
this tick's advance, no reset happens at all; and a reset happens exactly
when the LAST animation of the in-flight list is a toDeck animation and
every in-flight animation (fromDeck draw animations included) completes on
this very tick. -/
theorem reset_gate (fresh : List Card) (s : GameState)
    (hInv : ∀ a ∈ s.animated_cards, a.elapsed < a.duration) :
    tickResetCount fresh s ≤ 1 ∧
    ((∃ a ∈ s.animated_cards, a.elapsed + 1 < a.duration) →
      tickResetCount fresh s = 0) ∧
    (tickResetCount fresh s = 1 ↔
      lastToDeck s.animated_cards = true ∧
      ∀ a ∈ s.animated_cards, a.duration ≤ a.elapsed + 1) := by
  have hcount := tickResetCount_eq fresh s hInv
  refine ⟨?_, ?_, ?_⟩
  · rw [hcount]
    split <;> omega
  · rintro ⟨a, ha, hlt⟩
    rw [hcount, if_neg]
    intro hfires
    have := (resetFires_nil_iff s.animated_cards).mp hfires
    have := this.2 a ha
    omega
  · rw [hcount]
    constructor
    · intro h1
      by_cases hf : resetFires [] s.animated_cards = true
      · exact (resetFires_nil_iff s.animated_cards).mp hf
      · rw [if_neg hf] at h1
        omega
    · intro h2
      rw [if_pos ((resetFires_nil_iff s.animated_cards).mpr h2)]

/-- Witness for reset_gate at the concrete state gateState. -/
theorem reset_gate_witness :
    (∀ a ∈ gateState.animated_cards, a.elapsed < a.duration) ∧
    (tickResetCount dtest gateState ≤ 1 ∧
    ((∃ a ∈ gateState.animated_cards, a.elapsed + 1 < a.duration) →
      tickResetCount dtest gateState = 0) ∧
    (tickResetCount dtest gateState = 1 ↔
      lastToDeck gateState.animated_cards = true ∧
      ∀ a ∈ gateState.animated_cards, a.duration ≤ a.elapsed + 1)) :=
  ⟨by decide, reset_gate dtest gateState (by decide)⟩

end CardGame
